import Mathlib

/-!
# Verification of the ATS filing feature-extraction engine

Shallow embedding of the extraction engine found in `seminar_parse.py` and
`radio_matrix.py`, together with theorems settling the specification claims.

Strings are modelled as `List Char` (Python `str` is a sequence of code
points).  Python's `str.lower` is modelled on the ASCII range (the only
range exercised by the engine's patterns and labels); `re` character
classes are modelled by explicit decidable predicates on code points.
-/

/-- The hyphen-family characters of the regex `[‐‑–—-]` used by
`_normalise` in both `seminar_parse.py` and `radio_matrix.py`
(U+2010, U+2011, U+2013, U+2014 and ASCII `-`). -/
def isHyphenC (c : Char) : Bool :=
  decide (c.toNat = 45 ∨ c.toNat = 8208 ∨ c.toNat = 8209 ∨ c.toNat = 8211 ∨ c.toNat = 8212)

/-- Python's `\s` for `str` patterns (also the set stripped by
`str.strip`): ASCII whitespace, the C1 separators, and the Unicode
space/line/paragraph separators. -/
def isWsC (c : Char) : Bool :=
  decide ((9 ≤ c.toNat ∧ c.toNat ≤ 13) ∨ c.toNat = 32 ∨ (28 ≤ c.toNat ∧ c.toNat ≤ 31) ∨
    c.toNat = 133 ∨ c.toNat = 160 ∨ c.toNat = 5760 ∨
    (8192 ≤ c.toNat ∧ c.toNat ≤ 8202) ∨ c.toNat = 8232 ∨ c.toNat = 8233 ∨
    c.toNat = 8239 ∨ c.toNat = 8287 ∨ c.toNat = 12288)

/-- Source: `str.lower`, modelled on the ASCII range. -/
def lowerChar (c : Char) : Char :=
  if 65 ≤ c.toNat ∧ c.toNat ≤ 90 then Char.ofNat (c.toNat + 32) else c

theorem char_toNat_inj {c d : Char} (h : c.toNat = d.toNat) : c = d :=
  Char.ext (UInt32.ext h)

theorem toNat_ofNat_valid (n : Nat) (h : n.isValidChar) : (Char.ofNat n).toNat = n := by
  simp [Char.ofNat, h]
  rfl

theorem toNat_lowerChar (c : Char) :
    (lowerChar c).toNat = if 65 ≤ c.toNat ∧ c.toNat ≤ 90 then c.toNat + 32 else c.toNat := by
  by_cases h : 65 ≤ c.toNat ∧ c.toNat ≤ 90
  · have hv : (c.toNat + 32).isValidChar := Or.inl (by omega)
    simp [lowerChar, h, toNat_ofNat_valid _ hv]
  · simp [lowerChar, h]

theorem isWsC_lowerChar (c : Char) : isWsC (lowerChar c) = isWsC c := by
  have h := toNat_lowerChar c
  by_cases hc : 65 ≤ c.toNat ∧ c.toNat ≤ 90 <;> simp [hc] at h <;>
    simp only [isWsC, h, decide_eq_decide] <;> omega

theorem isHyphenC_lowerChar (c : Char) : isHyphenC (lowerChar c) = isHyphenC c := by
  have h := toNat_lowerChar c
  by_cases hc : 65 ≤ c.toNat ∧ c.toNat ≤ 90 <;> simp [hc] at h <;>
    simp only [isHyphenC, h, decide_eq_decide] <;> omega

theorem lowerChar_idem (c : Char) : lowerChar (lowerChar c) = lowerChar c := by
  have h := toNat_lowerChar c
  by_cases hc : 65 ≤ c.toNat ∧ c.toNat ≤ 90 <;> simp [hc] at h <;>
    · show (if _ then _ else _) = _
      rw [if_neg (by omega)]

theorem lowerChar_space_iff (c : Char) : (lowerChar c = ' ') ↔ (c = ' ') := by
  have h := toNat_lowerChar c
  have hs : (' ').toNat = 32 := rfl
  constructor
  · intro hc
    by_cases hb : 65 ≤ c.toNat ∧ c.toNat ≤ 90
    · rw [hc, hs] at h; simp [hb] at h; omega
    · rw [lowerChar, if_neg hb] at hc; exact hc
  · intro hc
    subst hc
    rfl

/-- One pass of `re.sub(r"[‐‑–—-]|\s+", " ", txt)`: each hyphen-family
character is replaced by a single space on its own, each maximal run of
whitespace is replaced by a single space.  (The regex alternation tries
the hyphen class first; the two classes are disjoint.) -/
def hyphenWsSub : List Char → List Char
  | [] => []
  | c :: cs =>
    if isHyphenC c then ' ' :: hyphenWsSub cs
    else if isWsC c then ' ' :: hyphenWsSub (cs.dropWhile isWsC)
    else c :: hyphenWsSub cs
termination_by l => l.length
decreasing_by
  all_goals simp
  exact Nat.lt_succ_of_le (List.dropWhile_suffix isWsC).length_le

/-- Structural (kernel-evaluable) form of `hyphenWsSub`: the Boolean state
records whether the previous character belonged to a whitespace run (a
whitespace character extends the pending run instead of emitting a new
space). -/
def hyphenWsSubGo : Bool → List Char → List Char
  | _, [] => []
  | inWs, c :: cs =>
    if isHyphenC c then ' ' :: hyphenWsSubGo false cs
    else if isWsC c then
      (if inWs then [] else [' ']) ++ hyphenWsSubGo true cs
    else c :: hyphenWsSubGo false cs

theorem hyphenWsSubGo_spec (cs : List Char) :
    hyphenWsSubGo false cs = hyphenWsSub cs ∧
    hyphenWsSubGo true cs = hyphenWsSub (cs.dropWhile isWsC) := by
  induction cs with
  | nil => exact ⟨by simp [hyphenWsSubGo, hyphenWsSub], by simp [hyphenWsSubGo, hyphenWsSub]⟩
  | cons c cs ih =>
    by_cases hh : isHyphenC c = true
    · have hw : isWsC c = false := by
        simp only [isHyphenC, isWsC, decide_eq_true_eq] at hh ⊢
        simp only [decide_eq_false_iff_not]
        omega
      constructor
      · rw [hyphenWsSubGo, if_pos hh, ih.1, hyphenWsSub, if_pos hh]
      · rw [List.dropWhile_cons, if_neg (by simp [hw]), hyphenWsSubGo, if_pos hh,
          ih.1, hyphenWsSub, if_pos hh]
    · by_cases hw : isWsC c = true
      · constructor
        · rw [hyphenWsSubGo, if_neg hh, if_pos hw, ih.2, hyphenWsSub,
            if_neg hh, if_pos hw]
          rfl
        · rw [List.dropWhile_cons, if_pos hw, hyphenWsSubGo, if_neg hh, if_pos hw,
            ih.2]
          rfl
      · constructor
        · rw [hyphenWsSubGo, if_neg hh, if_neg hw, ih.1, hyphenWsSub,
            if_neg hh, if_neg hw]
        · rw [List.dropWhile_cons, if_neg (by simp [hw]), hyphenWsSubGo,
            if_neg hh, if_neg hw, ih.1, hyphenWsSub, if_neg hh, if_neg hw]

/-- Python `str.strip()`. -/
def pyStrip (l : List Char) : List Char :=
  ((l.dropWhile isWsC).reverse.dropWhile isWsC).reverse

/-- Source: `_normalise` from `seminar_parse.py` (identical to
`RadioMatrix._normalise` in `radio_matrix.py`):
`_HYPHEN_WS.sub(" ", txt).lower().strip()`. -/
def normalise (l : List Char) : List Char :=
  pyStrip ((hyphenWsSubGo false l).map lowerChar)

/-- String-level wrapper of `normalise`. -/
def normaliseS (s : String) : String :=
  ⟨normalise s.data⟩

/-! ## Structure of normalised output

`flat` captures the shape of `_normalise`'s output on hyphen-free input:
no hyphen-family characters, every whitespace character is a plain space,
and no two adjacent whitespace characters. -/

/-- A character as left by one hyphen-free collapse pass: not a hyphen,
and whitespace only if it is the plain space. -/
def plainOk (c : Char) : Bool := !isHyphenC c && (!isWsC c || c == ' ')

/-- No two adjacent whitespace characters. -/
def noDblWs : List Char → Bool
  | c :: d :: t => !(isWsC c && isWsC d) && noDblWs (d :: t)
  | _ => true

def flat (l : List Char) : Bool := l.all plainOk && noDblWs l

theorem noDblWs_tail {c : Char} {l : List Char} (h : noDblWs (c :: l) = true) :
    noDblWs l = true := by
  cases l with
  | nil => rfl
  | cons d t => exact (Bool.and_eq_true_iff.mp h).2

theorem noDblWs_cons {c : Char} {l : List Char} (hc : isWsC c = false)
    (h : noDblWs l = true) : noDblWs (c :: l) = true := by
  cases l with
  | nil => rfl
  | cons d t => simp [noDblWs, hc, h]

theorem noDblWs_cons_ws {c : Char} {l : List Char}
    (hd : ∀ d, l.head? = some d → isWsC d = false)
    (h : noDblWs l = true) : noDblWs (c :: l) = true := by
  cases l with
  | nil => rfl
  | cons d t => simp [noDblWs, hd d rfl, h]

theorem flat_tail {c : Char} {l : List Char} (h : flat (c :: l) = true) :
    flat l = true := by
  simp only [flat, Bool.and_eq_true, List.all_cons] at h ⊢
  exact ⟨h.1.2, noDblWs_tail h.2⟩

theorem noDblWs_append_right {s t : List Char} (h : noDblWs (s ++ t) = true) :
    noDblWs t = true := by
  induction s with
  | nil => exact h
  | cons c cs ih => exact ih (noDblWs_tail h)

theorem noDblWs_append_left {s t : List Char} (h : noDblWs (s ++ t) = true) :
    noDblWs s = true := by
  induction s with
  | nil => rfl
  | cons c cs ih =>
    cases cs with
    | nil => rfl
    | cons d u =>
      have h1 : (!(isWsC c && isWsC d) && noDblWs (d :: (u ++ t))) = true := h
      have hpair := (Bool.and_eq_true_iff.mp h1).1
      have hrest : noDblWs ((d :: u) ++ t) = true := (Bool.and_eq_true_iff.mp h1).2
      show (!(isWsC c && isWsC d) && noDblWs (d :: u)) = true
      exact Bool.and_eq_true_iff.mpr ⟨hpair, ih hrest⟩

theorem flat_of_append_parts {p s q : List Char} (h : flat (p ++ s ++ q) = true) :
    flat s = true := by
  simp only [flat, Bool.and_eq_true, List.all_append] at h
  refine Bool.and_eq_true_iff.mpr ⟨h.1.1.2, ?_⟩
  have h2 : noDblWs (p ++ (s ++ q)) = true := by
    rw [← List.append_assoc]; exact h.2
  exact noDblWs_append_left (noDblWs_append_right h2)

theorem dropWhile_head_not {p : Char → Bool} {l : List Char} {c : Char}
    (h : (l.dropWhile p).head? = some c) : p c = false := by
  induction l with
  | nil => simp at h
  | cons d t ih =>
    rw [List.dropWhile_cons] at h
    by_cases hd : p d = true
    · rw [if_pos hd] at h; exact ih h
    · rw [if_neg hd] at h
      simp at h
      rw [← h]; simpa using hd

theorem dropWhile_eq_self_of_head {p : Char → Bool} {l : List Char}
    (h : ∀ c, l.head? = some c → p c = false) : l.dropWhile p = l := by
  cases l with
  | nil => rfl
  | cons d t => rw [List.dropWhile_cons, if_neg (by simp [h d rfl])]

theorem suffix_getLast? {l s : List Char} (h : s <:+ l) (hs : s ≠ []) :
    l.getLast? = s.getLast? := by
  obtain ⟨t, ht⟩ := h
  rw [← ht, List.getLast?_append]
  cases hg : s.getLast? with
  | none => exact absurd (List.getLast?_eq_none_iff.mp hg) hs
  | some c => rfl

theorem hyphenWsSub_head_not_ws {l : List Char}
    (hh : ∀ c, l.head? = some c → isHyphenC c = false)
    (hw : ∀ c, l.head? = some c → isWsC c = false) :
    ∀ c, (hyphenWsSub l).head? = some c → isWsC c = false := by
  intro c hc
  cases l with
  | nil => simp [hyphenWsSub] at hc
  | cons d t =>
    rw [hyphenWsSub, if_neg (by simp [hh d rfl]), if_neg (by simp [hw d rfl])] at hc
    simp at hc
    rw [← hc]
    exact hw d rfl

theorem flat_hyphenWsSub (l : List Char) (hnh : ∀ c ∈ l, isHyphenC c = false) :
    flat (hyphenWsSub l) = true := by
  induction l using hyphenWsSub.induct with
  | case1 => simp [hyphenWsSub, flat]; rfl
  | case2 c cs hh ih =>
    exact absurd (hnh c (by simp)) (by simp [hh])
  | case3 c cs hh hw ih =>
    have hsub : ∀ x ∈ cs.dropWhile isWsC, isHyphenC x = false := fun x hx =>
      hnh x (List.mem_cons_of_mem c ((List.dropWhile_suffix isWsC).sublist.subset hx))
    have hflat := ih hsub
    rw [hyphenWsSub, if_neg (by simp [hh]), if_pos hw]
    simp only [flat, Bool.and_eq_true, List.all_cons] at hflat ⊢
    refine ⟨⟨by decide, hflat.1⟩, ?_⟩
    refine noDblWs_cons_ws ?_ hflat.2
    exact hyphenWsSub_head_not_ws
      (fun x hx => hsub x (List.mem_of_mem_head? hx))
      (fun x hx => dropWhile_head_not hx)
  | case4 c cs hh hw ih =>
    have hsub : ∀ x ∈ cs, isHyphenC x = false := fun x hx => hnh x (List.mem_cons_of_mem c hx)
    have hflat := ih hsub
    rw [hyphenWsSub, if_neg (by simp [hh]), if_neg (by simp [hw])]
    simp only [flat, Bool.and_eq_true, List.all_cons] at hflat ⊢
    refine ⟨⟨by simp [plainOk, hh, hw], hflat.1⟩,
      noDblWs_cons (by simpa using hw) hflat.2⟩

theorem hyphenWsSub_flat_id (l : List Char) (hf : flat l = true) :
    hyphenWsSub l = l := by
  induction l using hyphenWsSub.induct with
  | case1 => simp [hyphenWsSub]
  | case2 c cs hh ih =>
    simp only [flat, Bool.and_eq_true, List.all_cons, plainOk] at hf
    simp [hh] at hf
  | case3 c cs hh hw ih =>
    have hf2 := hf
    simp only [flat, Bool.and_eq_true, List.all_cons] at hf2
    have hsp : c = ' ' := by
      have h1 := hf2.1.1
      simp [plainOk, hh, hw] at h1
      simpa using h1
    have hhead : ∀ d, cs.head? = some d → isWsC d = false := by
      intro d hd
      cases cs with
      | nil => simp at hd
      | cons e t =>
        simp at hd
        subst hd
        have h2 := (Bool.and_eq_true_iff.mp hf2.2).1
        simp [hw] at h2
        simp [h2]
    have hdw : cs.dropWhile isWsC = cs := dropWhile_eq_self_of_head hhead
    have ih2 : hyphenWsSub cs = cs := by
      rw [hdw] at ih
      exact ih (flat_tail hf)
    rw [hyphenWsSub, if_neg (by simp [hh]), if_pos hw, hdw, ih2, hsp]
  | case4 c cs hh hw ih =>
    rw [hyphenWsSub, if_neg (by simp [hh]), if_neg (by simp [hw]), ih (flat_tail hf)]

theorem plainOk_lowerChar (c : Char) : plainOk (lowerChar c) = plainOk c := by
  simp only [plainOk, isWsC_lowerChar, isHyphenC_lowerChar]
  by_cases hc : c = ' '
  · subst hc; rfl
  · have h1 : (lowerChar c == ' ') = false := by
      simp [lowerChar_space_iff, hc]
    have h2 : (c == ' ') = false := by simp [hc]
    rw [h1, h2]

theorem noDblWs_map_lower (l : List Char) : noDblWs (l.map lowerChar) = noDblWs l := by
  match l with
  | [] => rfl
  | [c] => rfl
  | c :: d :: t =>
    show (!(isWsC (lowerChar c) && isWsC (lowerChar d)) && noDblWs ((d :: t).map lowerChar))
        = _
    rw [isWsC_lowerChar, isWsC_lowerChar, noDblWs_map_lower (d :: t)]
    rfl

theorem flat_map_lower {l : List Char} (hf : flat l = true) :
    flat (l.map lowerChar) = true := by
  simp only [flat, Bool.and_eq_true] at hf ⊢
  refine ⟨?_, by rw [noDblWs_map_lower]; exact hf.2⟩
  rw [List.all_map]
  have : (plainOk ∘ lowerChar) = plainOk := funext plainOk_lowerChar
  rw [this]
  exact hf.1

theorem map_lower_idem (l : List Char) :
    (l.map lowerChar).map lowerChar = l.map lowerChar := by
  rw [List.map_map]
  have : (lowerChar ∘ lowerChar) = lowerChar := funext lowerChar_idem
  rw [this]

/-! ## Strip lemmas -/

theorem pyStrip_decomp (l : List Char) : ∃ p q, l = p ++ pyStrip l ++ q := by
  obtain ⟨p, hp⟩ := List.dropWhile_suffix (l := l) isWsC
  obtain ⟨q, hq⟩ := List.dropWhile_suffix (l := (l.dropWhile isWsC).reverse) isWsC
  refine ⟨p, q.reverse, ?_⟩
  have h1 : l.dropWhile isWsC = pyStrip l ++ q.reverse := by
    have h2 := congrArg List.reverse hq
    simp only [List.reverse_append, List.reverse_reverse] at h2
    rw [pyStrip]
    exact h2.symm
  calc l = p ++ l.dropWhile isWsC := hp.symm
    _ = p ++ (pyStrip l ++ q.reverse) := by rw [h1]
    _ = p ++ pyStrip l ++ q.reverse := by rw [List.append_assoc]

theorem flat_pyStrip {l : List Char} (hf : flat l = true) : flat (pyStrip l) = true := by
  obtain ⟨p, q, hpq⟩ := pyStrip_decomp l
  exact flat_of_append_parts (hpq ▸ hf)

theorem pyStrip_head_not_ws {l : List Char} {c : Char}
    (h : (pyStrip l).head? = some c) : isWsC c = false := by
  have h2 : ((l.dropWhile isWsC).reverse.dropWhile isWsC).getLast? = some c := by
    rw [← List.head?_reverse]
    exact h
  have hne : (l.dropWhile isWsC).reverse.dropWhile isWsC ≠ [] := by
    intro hnil
    rw [hnil] at h2
    simp at h2
  have h3 : ((l.dropWhile isWsC).reverse).getLast? = some c := by
    rw [suffix_getLast? (List.dropWhile_suffix isWsC) hne]
    exact h2
  rw [List.getLast?_reverse] at h3
  exact dropWhile_head_not h3

theorem pyStrip_getLast_not_ws {l : List Char} {c : Char}
    (h : (pyStrip l).getLast? = some c) : isWsC c = false := by
  rw [pyStrip, List.getLast?_reverse] at h
  exact dropWhile_head_not h

theorem pyStrip_eq_self {l : List Char}
    (hh : ∀ c, l.head? = some c → isWsC c = false)
    (hl : ∀ c, l.getLast? = some c → isWsC c = false) : pyStrip l = l := by
  rw [pyStrip, dropWhile_eq_self_of_head hh, dropWhile_eq_self_of_head
    (fun c hc => hl c (by rwa [List.head?_reverse] at hc)), List.reverse_reverse]

theorem map_lower_pyStrip (l : List Char) :
    (pyStrip l).map lowerChar = pyStrip (l.map lowerChar) := by
  have hws : (isWsC ∘ lowerChar) = isWsC := funext isWsC_lowerChar
  rw [pyStrip, pyStrip, List.dropWhile_map, hws, ← List.map_reverse,
    List.dropWhile_map, hws, List.map_reverse]

/-- On hyphen-free input, a full `_normalise` pass produces a fixed point
of `_normalise`. -/
theorem normalise_fix_of_noHyphen (l : List Char) (hnh : ∀ c ∈ l, isHyphenC c = false) :
    normalise (normalise l) = normalise l := by
  have hgo : ∀ m : List Char, normalise m = pyStrip ((hyphenWsSub m).map lowerChar) := by
    intro m
    rw [normalise, (hyphenWsSubGo_spec m).1]
  have hft : flat (hyphenWsSub l) = true := flat_hyphenWsSub l hnh
  have hfu : flat ((hyphenWsSub l).map lowerChar) = true := flat_map_lower hft
  set u := (hyphenWsSub l).map lowerChar with hu
  have hfv : flat (pyStrip u) = true := flat_pyStrip hfu
  rw [hgo l]
  show normalise (pyStrip u) = pyStrip u
  rw [hgo (pyStrip u), hyphenWsSub_flat_id _ hfv, map_lower_pyStrip, hu, map_lower_idem,
    ← hu]
  exact pyStrip_eq_self
    (fun c hc => pyStrip_head_not_ws hc)
    (fun c hc => pyStrip_getLast_not_ws hc)

/-! ## Python string primitives -/

/-- Python's substring test `needle in hay`. -/
def pyContains (hay needle : List Char) : Bool :=
  hay.tails.any (fun t => needle.isPrefixOf t)

/-- Source: `needle in hay` on strings. -/
def pyInStr (needle hay : String) : Bool := pyContains hay.data needle.data

/-- Source: `str.lower` (ASCII range). -/
def strLower (s : String) : String := ⟨s.data.map lowerChar⟩

/-! ## `RadioMatrix` (`radio_matrix.py`) -/

/-- The node immediately following the checked radio image
(bs4 `img.next_sibling`): either a text node (`NavigableString`)
or an element (`Tag`). -/
inductive Sib where
  | text (s : String)
  | elem
deriving DecidableEq, Repr

/-- One `<tr>` holding a `td.label` cell, as consumed by
`RadioMatrix._build_rows_cache`: `label` is the label cell's
`get_text(" ", strip=True)`; `checked = none` when the row has no
`img[src*="radio-checked"]`, otherwise `some sib` where `sib` is that
image's `next_sibling` (`none` when the image has no next sibling). -/
structure RadioRow where
  label : String
  checked : Option (Option Sib)
deriving DecidableEq, Repr

/-- Source: `RadioMatrix._build_rows_cache`: the ordered cache of
(normalised label, row) pairs. -/
def buildRows (rows : List RadioRow) : List (String × RadioRow) :=
  rows.map (fun r => (normaliseS r.label, r))

/-- Lines 32–37 of `RadioMatrix._radio_yes_no`, applied to the first
matching row: `img = row.select_one('img[src*="radio-checked"]')`;
if absent return `None`; otherwise `txt = (img.next_sibling or "").lower()`
and `return "yes" in txt`.  When `next_sibling` is an element, `.lower`
is resolved by bs4's `Tag.__getattr__` to `find("lower")`, i.e. `None`,
which is then called — the call raises; modelled as `Except.error`. -/
def rowAnswer : Option (Option Sib) → Except Unit (Option Bool)
  | none => .ok none
  | some none => .ok (some (pyInStr "yes" ""))
  | some (some (.text s)) => .ok (some (pyInStr "yes" (strLower s)))
  | some (some .elem) => .error ()

/-- The row-scanning loop of `RadioMatrix._radio_yes_no` (lines 28–39):
the fragment is already normalised; a row matches when the fragment is a
substring of its normalised label (`if frag not in label: continue`). -/
def radioYesNoAux (frag : String) : List (String × RadioRow) → Except Unit (Option Bool)
  | [] => .ok none
  | (label, row) :: rest =>
    if pyInStr frag label then rowAnswer row.checked
    else radioYesNoAux frag rest

/-- Source: `RadioMatrix._radio_yes_no` (the active definition, lines 24–39 of
`radio_matrix.py`). -/
def radio_yes_no (rows : List (String × RadioRow)) (labelFragment : String) :
    Except Unit (Option Bool) :=
  radioYesNoAux (normaliseS labelFragment) rows

/-! ## Python dict with insertion order -/

/-- A Python `dict` with string keys/values: an insertion-ordered
association list. -/
abbrev Dict := List (String × String)

def containsK (d : Dict) (k : String) : Bool := d.any (fun p => p.1 == k)

/-- Source: `d[k] = v`: overwrite in place if present, else append. -/
def dset (d : Dict) (k v : String) : Dict :=
  if containsK d k then d.map (fun p => if p.1 == k then (k, v) else p)
  else d ++ [(k, v)]

/-- Source: `del d[k]` / `d.pop(k, …)` (key removal part). -/
def ddel (d : Dict) (k : String) : Dict := d.filter (fun p => p.1 != k)

/-- Source: `d.get(k, default)` / `d.pop(k, default)` (value part). -/
def dgetD (d : Dict) (k dflt : String) : String :=
  ((d.find? (fun p => p.1 == k)).map Prod.snd).getD dflt

/-- Source: `d.update(l)` in iteration order of `l`. -/
def dmerge (d : Dict) (l : List (String × String)) : Dict :=
  l.foldl (fun acc p => dset acc p.1 p.2) d

theorem containsK_overwrite (d : Dict) (k v x : String) :
    containsK (d.map (fun p => if p.1 == k then (k, v) else p)) x = containsK d x := by
  induction d with
  | nil => rfl
  | cons p t ih =>
    simp only [List.map_cons, containsK, List.any_cons] at ih ⊢
    by_cases hp : p.1 == k
    · have : p.1 = k := by simpa using hp
      rw [if_pos hp, ih, ← this]
    · rw [if_neg hp, ih]

theorem containsK_dset (d : Dict) (k v x : String) :
    containsK (dset d k v) x = (x == k || containsK d x) := by
  unfold dset
  by_cases h : containsK d k = true
  · rw [if_pos h, containsK_overwrite]
    by_cases hx : x = k
    · subst hx; simp [h]
    · simp [hx]
  · rw [if_neg h]
    simp only [containsK, List.any_append, List.any_cons, List.any_nil]
    by_cases hx : x = k
    · subst hx; simp
    · have h1 : (x == k) = false := by simp [hx]
      have h2 : (k == x) = false := beq_eq_false_iff_ne.mpr (Ne.symm hx)
      simp [containsK, h1, h2]

theorem beq_comm_str (a b : String) : (a == b) = (b == a) := by
  by_cases h : a = b
  · subst h; rfl
  · rw [beq_eq_false_iff_ne.mpr h, beq_eq_false_iff_ne.mpr (Ne.symm h)]

theorem containsK_ddel (d : Dict) (k x : String) :
    containsK (ddel d k) x = (x != k && containsK d x) := by
  induction d with
  | nil => simp [ddel, containsK]
  | cons p t ih =>
    simp only [ddel, containsK, List.filter] at ih ⊢
    by_cases hp : p.1 = k
    · have hb : (p.1 != k) = false := by simp [hp]
      rw [hb]
      rw [ih]
      by_cases px : p.1 = x
      · have hxk : (x != k) = false := by
          rw [← px, hp]
          simp
        simp [hxk]
      · have : (p.1 == x) = false := beq_eq_false_iff_ne.mpr px
        simp [this]
    · have hb : (p.1 != k) = true := by simp [hp]
      rw [hb]
      simp only [List.any_cons]
      rw [ih]
      by_cases px : p.1 = x
      · subst px
        have hxk : (p.1 != k) = true := hb
        simp [hxk]
      · have : (p.1 == x) = false := beq_eq_false_iff_ne.mpr px
        simp [this]

theorem containsK_dmerge (d : Dict) (l : List (String × String)) (x : String) :
    containsK (dmerge d l) x = (containsK d x || l.any (fun p => p.1 == x)) := by
  induction l generalizing d with
  | nil => simp [dmerge]
  | cons p t ih =>
    show containsK (dmerge (dset d p.1 p.2) t) x = _
    rw [ih, containsK_dset]
    simp only [List.any_cons]
    rw [beq_comm_str p.1 x]
    cases hx : (x == p.1) <;> cases hc : containsK d x <;> simp

/-! ## Yes/No questions and feature composers (`seminar_parse.py`) -/

/-- Source: `_bool_to_word`: `{True: "Yes", False: "No"}.get(value, "Unclear")`. -/
def bool_to_word : Option Bool → String
  | some true => "Yes"
  | some false => "No"
  | none => "Unclear"

/-- Source: `YES_NO_QUESTIONS`, in the source dict's insertion order. -/
def YES_NO_QUESTIONS : List (String × String) := [
  ("subscriber_opt_out_bdo",
    "Can any Subscriber opt out from interacting with orders and trading interest of the Broker-Dealer Operator"),
  ("subscriber_opt_out_affiliate",
    "opt out from interacting with the orders and trading interest of an Affiliate of the Broker-Dealer Operator"),
  ("counterparty_selection_supported",
    "a. Can orders or trading interest be designated to interact or not interact"),
  ("counterparty_selection_uniform",
    "b. If yes to Item 14(a)"),
  ("internal_trading_allowed",
    "Are business units of the Broker-Dealer Operator permitted to enter or direct the entry of orders"),
  ("affiliate_access_to_ats",
    "Are Affiliates of the Broker-Dealer Operator permitted to enter or direct the entry of orders"),
  ("routing_to_affiliate_venue",
    "be routed to a Trading Center operated or controlled by an Affiliate of the Broker-Dealer Operator"),
  ("ecn_status",
    "operate as an Electronic Communication Network as defined in Rule 600"),
  ("display_to_persons",
    "displayed or made known to any Person (not including those employees"),
  ("display_procedures_uniform",
    "display procedures required to be identified in 15(b) the same"),
  ("supports_iois",
    "send or receive any messages indicating trading interest (e.g., IOIs, actionable IOIs, or conditional orders)"),
  ("ioi_uniform_treatment",
    "b. If yes to Item 9(a), are the terms and conditions governing conditional orders"),
  ("segmentation_supported", "segmented into categories, classifications, tiers, or levels"),
  ("segmentation_uniform", "segmentation of orders and trading interest the same for all Subscribers"),
  ("segmentation_customer_flag", "identify orders or trading interest entered by a customer"),
  ("segmentation_disclosed", "does the NMS Stock ATS disclose to any Person the designated segmented"),
  ("segmentation_disclosure_uniform", "disclosures required to be identified in 13(d) the same")]

/-- The case analysis of `_subscriber_opt_out` (lines 143–151 of
`seminar_parse.py`), as a function of the two resolved answers. -/
def subscriberOptOutCompose (bdo aff : Option Bool) : String :=
  if bdo = some true ∧ aff = some true then
    "Yes — Subscriber can opt out of both the ATS operator and its affiliates"
  else if bdo = some true ∧ aff = some false then
    "Yes — Subscriber can opt out of ATS operator but not affiliates"
  else if bdo = some false ∧ aff = some true then
    "Yes — Subscriber can opt out of affiliates but not ATS operator"
  else if bdo = some false ∧ aff = some false then
    "No — Subscriber cannot opt out from either"
  else "Unclear"

/-- The result string of `_counterparty_selection`: `explanation` is always
`None` in the source (it is initialised and never assigned), so the
`Details` suffix is never appended; `'uniform' if uniform else …` uses
Python truthiness (`None` and `False` are both falsy). -/
def counterpartyCompose (supported uniform : Option Bool) : String :=
  bool_to_word supported ++ " — procedures are " ++
    (if uniform = some true then "uniform" else "not uniform")

/-- The result string of `_ioi_support` (the `explanation` block is
computed but not used in the returned string). -/
def ioiCompose (hasSupport uniform : Option Bool) : String :=
  bool_to_word hasSupport ++ " — terms and conditions are " ++
    (if uniform = some true then "uniform" else "not uniform")

/-- Source: `" ".join(summary_parts)` of `extract_internal_trading_access`. -/
def tradingSummary (a b c : Option Bool) : String :=
  String.intercalate " " (
    (match a with
     | some true => ["ATS operator’s business units can trade on the ATS."]
     | some false => ["ATS operator’s business units are not allowed to trade on the ATS."]
     | none => []) ++
    (match b with
     | some true => ["Affiliates can also send orders into the ATS."]
     | some false => ["Affiliates are not allowed to send orders into the ATS."]
     | none => []) ++
    (match c with
     | some true => ["ATS can route orders to affiliated venues."]
     | some false => ["ATS cannot route orders to affiliated venues."]
     | none => []))

/-- The dict built by `extract_internal_trading_access`, as a function of
the three resolved answers (insertion order of the source). -/
def internalTradingDict (a b c : Option Bool) : List (String × String) :=
  [("internal_trading_allowed", bool_to_word a),
   ("affiliate_access_to_ats", bool_to_word b),
   ("routing_to_affiliate_venue", bool_to_word c),
   ("trading_access_summary", tradingSummary a b c)]

/-! ## A small matching engine for the source's literal-phrase regexes -/

/-- ASCII uppercase map (`str.upper`). -/
def upperChar (c : Char) : Char :=
  if 97 ≤ c.toNat ∧ c.toNat ≤ 122 then Char.ofNat (c.toNat - 32) else c

/-- Source: `\w` (ASCII model): letters, digits, underscore. -/
def isWordC (c : Char) : Bool := c.isAlpha || c.isDigit || c == '_'

def isWordO : Option Char → Bool
  | none => false
  | some c => isWordC c

/-- Source: `\b` between an optional previous and next character. -/
def boundB (a b : Option Char) : Bool := isWordO a != isWordO b

/-- Element of the simple patterns used by the order-type and
segmentation regexes: case-insensitive literals, `\s+`, a greedy
optional character class `[…]?`, and a final literal-word alternation. -/
inductive RElem where
  | lit (c : Char)
  | wsPlus
  | optCls (cs : List Char)
  | altLits (ss : List (List Char))
deriving Repr

/-- Case-insensitive prefix match of the literal word `w` against `s`;
returns (consumed text, rest). -/
def matchCI : List Char → List Char → Option (List Char × List Char)
  | [], s => some ([], s)
  | _ :: _, [] => none
  | c :: w, d :: s =>
    if lowerChar d == lowerChar c then
      (matchCI w s).map (fun pr => (d :: pr.1, pr.2))
    else none

/-- First alternative of `(w1|w2|…)` matching as a prefix (in the source
these groups are pattern-final, so no continuation backtracking exists). -/
def firstAlt (ss : List (List Char)) (s : List Char) : Option (List Char × List Char) :=
  match ss with
  | [] => none
  | w :: rest =>
    match matchCI w s with
    | some pr => some pr
    | none => firstAlt rest s

/-- Match a pattern-element sequence at the start of `s`, returning
(consumed text, rest).  `\s+` is maximal-munch (in every source pattern
the element after `\s+` cannot match whitespace); `optCls` is greedy
with zero-width fallback. -/
def matchSeq : List RElem → List Char → Option (List Char × List Char)
  | [], s => some ([], s)
  | .lit c :: es, s =>
    match s with
    | [] => none
    | d :: t =>
      if lowerChar d == lowerChar c then
        (matchSeq es t).map (fun pr => (d :: pr.1, pr.2))
      else none
  | .wsPlus :: es, s =>
    let run := s.takeWhile isWsC
    if run.isEmpty then none
    else (matchSeq es (s.dropWhile isWsC)).map (fun pr => (run ++ pr.1, pr.2))
  | .optCls cs :: es, s =>
    match s with
    | [] => matchSeq es []
    | d :: t =>
      if cs.contains d then
        match matchSeq es t with
        | some pr => some (d :: pr.1, pr.2)
        | none => matchSeq es (d :: t)
      else matchSeq es (d :: t)
  | .altLits ss :: es, s =>
    match firstAlt ss s with
    | some (m, r) => (matchSeq es r).map (fun pr => (m ++ pr.1, pr.2))
    | none => none

/-- Literal-word pattern. -/
def lits (s : String) : List RElem := s.data.map RElem.lit

/-- A whole `\b…\b` pattern match attempt at the current position. -/
def orderMatchAt (es : List RElem) (prev : Option Char) (s : List Char) :
    Option (List Char) :=
  if boundB prev s.head? then
    match matchSeq es s with
    | none => none
    | some (m, r) => if boundB m.getLast? r.head? then some m else none
  else none

/-- Source: `rx.search` for a `\b…\b` pattern: first match in left-to-right scan;
returns the matched text (`m.group(0)`). -/
def orderSearch (es : List RElem) : Option Char → List Char → Option (List Char)
  | _, [] => none
  | prev, c :: t =>
    match orderMatchAt es prev (c :: t) with
    | some m => some m
    | none => orderSearch es (some c) t

/-! ## Order-type detection (`seminar_parse.py` lines 230–312) -/

/-- Source: `ORDER_TYPE_PATTERNS` / `ORDER_TYPE_REGEXES`: each pattern is
compiled as `\b…\b`, case-insensitive, and searched on the normalised
narrative text. -/
def ORDER_TYPE_PATTERNS : List (String × List (List RElem)) := [
  ("midpoint", [lits "mid point peg", lits "mid peg", lits "midpoint peg", lits "mp peg"]),
  ("market_peg", [lits "market peg"]),
  ("primary_peg", [lits "primary peg"]),
  ("vwap", [lits "vwap"]),
  ("post_only", [lits "post" ++ [.optCls [' ']] ++ lits "only",
                 lits "add liquidity only", lits "alo"]),
  ("conditional", [lits "conditional order", lits "firm up", lits "firm-up"]),
  ("displayed", [lits "displayed order", lits "non displayed"]),
  ("market", [lits "market order"]),
  ("limit", [lits "limit order"]),
  ("iceberg", [lits "ice" ++ [.optCls [' ']] ++ lits "berg",
               lits "reserve order", lits "hidden size"]),
  ("discretionary", [lits "discretionary order",
                     lits "disc" ++ [.optCls [' ']] ++ lits "order", lits "dqr"])]

/-- The token class `[A-Z0-9+/.-]` of `_UNKNOWN_PATTERN` under `re.I`. -/
def tokCls (c : Char) : Bool :=
  c.isAlpha || c.isDigit || c == '+' || c == '/' || c == '.' || c == '-'

/-- Greedy optional literal suffix followed by the closing `\b` of
`_UNKNOWN_PATTERN`'s keyword alternation: try consuming `w`, else fall
back to zero width; in both cases demand a word boundary after. -/
def optSuffixB (w : List Char) (last : Char) (r : List Char) : Option (List Char × Char) :=
  match matchCI w r with
  | some (m2, r2) =>
    let last2 := m2.getLastD last
    if boundB (some last2) r2.head? then some (r2, last2)
    else if boundB (some last) r.head? then some (r, last)
    else none
  | none =>
    if boundB (some last) r.head? then some (r, last) else none

/-- The keyword alternation
`(?:order(?:s)?|peg(?:ged)?|order\s+type|orders\s+type[s]?)\b`,
branches tried in source order; returns (rest after keyword, last
matched character). -/
def kwMatch (s : List Char) : Option (List Char × Char) :=
  (match matchCI "order".data s with
   | some (m, r) => optSuffixB "s".data (m.getLastD 'r') r
   | none => none) <|>
  (match matchCI "peg".data s with
   | some (m, r) => optSuffixB "ged".data (m.getLastD 'g') r
   | none => none) <|>
  (match matchSeq (lits "order" ++ [.wsPlus] ++ lits "type") s with
   | some (m, r) =>
     if boundB m.getLast? r.head? then some (r, m.getLastD 'e') else none
   | none => none) <|>
  (match matchSeq (lits "orders" ++ [.wsPlus] ++ lits "type") s with
   | some (m, r) => optSuffixB "s".data (m.getLastD 'e') r
   | none => none)

/-- One attempt of `_UNKNOWN_PATTERN` at the current position:
`\b([A-Z0-9+/.-]{3,})\s+(?:keyword)\b`.  Returns
(captured group 1, rest after the whole match, last matched char). -/
def unknownAt (prev : Option Char) (s : List Char) :
    Option (List Char × List Char × Char) :=
  if boundB prev s.head? then
    let run := s.takeWhile tokCls
    if run.length < 3 then none
    else
      let r1 := s.dropWhile tokCls
      if (r1.takeWhile isWsC).isEmpty then none
      else
        match kwMatch (r1.dropWhile isWsC) with
        | some (rest, last) => some (run, rest, last)
        | none => none
  else none

/-- Source: `_UNKNOWN_PATTERN.finditer`: non-overlapping left-to-right scan,
collecting every `m.group(1)`.  The fuel equals the remaining length
(every step consumes at least one character). -/
def unknownFind : Nat → Option Char → List Char → List (List Char)
  | 0, _, _ => []
  | _ + 1, _, [] => []
  | fuel + 1, prev, c :: t =>
    match unknownAt prev (c :: t) with
    | some (tok, rest, last) => tok :: unknownFind fuel (some last) rest
    | none => unknownFind fuel (some c) t

def unknownTokens (raw : List Char) : List (List Char) :=
  unknownFind raw.length none raw

/-- The `STOP` set of `parse_order_type_features`. -/
def STOP : List String :=
  ["THE", "AND", "FOR", "UPON", "WHICH", "EACH", "OTHER", "SUCH", "THESE", "THREE",
   "ANOTHER", "DAY", "BUY", "SELL", "FIRM", "ORDER", "ORDERS", "LIMIT", "MARKET",
   "PRIMARY", "PEGGED", "ARRIVING", "FOLLOWING", "INCOMPLETE", "NECESSARY", "CENTERS.",
   "CONNECTIVITY.", "CONTRA-SIDE", "ATTRIBUTES"]

/-- Code-point lexicographic order on character lists — Python's `<`
on strings. -/
def listLt : List Char → List Char → Bool
  | [], [] => false
  | [], _ :: _ => true
  | _ :: _, [] => false
  | c :: cs, d :: ds =>
    if c.toNat < d.toNat then true
    else if d.toNat < c.toNat then false
    else listLt cs ds

def strLt (a b : String) : Bool := listLt a.data b.data

/-- Sorted insertion dropping duplicates: `sorted(set)` on strings. -/
def insertSorted (x : String) : List String → List String
  | [] => [x]
  | y :: t =>
    if strLt x y then x :: y :: t
    else if x == y then y :: t
    else y :: insertSorted x t

def sortedSet (l : List String) : List String := l.foldr insertSorted []

/-- Sorted insertion keeping duplicates: Python `sorted(list)`. -/
def insertKeep (x : String) : List String → List String
  | [] => [x]
  | y :: t => if strLt x y || x == y then x :: y :: t else y :: insertKeep x t

def sortKeep (l : List String) : List String := l.foldr insertKeep []

def listToStr (l : List Char) : String := ⟨l⟩
def strLowerL (l : List Char) : String := ⟨l.map lowerChar⟩
def strUpperL (l : List Char) : String := ⟨l.map upperChar⟩

/-- The tokens surviving both filters of `parse_order_type_features`
step 2: group-1 hits whose lowercase form is not an already-detected
category, uppercased, made into a sorted set, then filtered against
`STOP`.  The final source line `list({…})` re-wraps the tokens in a
Python set whose iteration order is unspecified; the model keeps the
sorted order of the previous line, which is faithful up to list order. -/
def unknownSurvivors (raw : List Char) (detected : List String) : List String :=
  (sortedSet (((unknownTokens raw).filter
      (fun tk => !detected.contains (strLowerL tk))).map strUpperL)).filter
    (fun tok => !STOP.contains (strUpperL tok.data))

/-- Source: `parse_order_type_features` (lines 277–312). -/
def parse_order_type_features (item7_raw : List Char) : List (String × String) :=
  let text_norm := normalise item7_raw
  let rawHits := ORDER_TYPE_PATTERNS.map (fun kp =>
    (kp.1, kp.2.filterMap (fun es => orderSearch es none text_norm)))
  let detected := ORDER_TYPE_PATTERNS.foldl (fun acc kp =>
    acc ++ kp.2.filterMap (fun es =>
      (orderSearch es none text_norm).map (fun _ => kp.1))) []
  let supports := ORDER_TYPE_PATTERNS.map (fun kp =>
    ("supports_" ++ kp.1 ++ "_orders",
     if kp.2.any (fun es => (orderSearch es none text_norm).isSome) then "Yes" else "No"))
  let unknown_tokens := unknownSurvivors item7_raw detected
  let hitEntries := (rawHits.filter (fun kr => !kr.2.isEmpty)).map (fun kr =>
    kr.1 ++ ":" ++ String.intercalate "|" (kr.2.map listToStr))
  supports ++
  [("custom_order_types_detected",
    if !detected.isEmpty || !unknown_tokens.isEmpty then "Yes" else "No"),
   ("custom_order_types_list",
    String.intercalate ", " (sortKeep (detected ++ unknown_tokens))),
   ("custom_order_types_raw_matches",
    if hitEntries.isEmpty then "None" else String.intercalate "; " hitEntries),
   ("unrecognised_custom_orders",
    if unknown_tokens.isEmpty then "None" else String.intercalate ", " unknown_tokens)]

/-! ## Document traversal model (`_section_text`, `_item7_text`, `_item13_text`)

The document is modelled as its flat `next_elements` pre-order event
sequence.  Anchors follow the filing convention `<a name="…"></a>`
(contentless, the name attribute only); since bs4 compares tags
structurally (`Tag.__eq__` on name/attributes/contents), two such anchor
nodes are equal exactly when their names are equal.  An element node
carries its `get_text(" ", strip=True)` text; nested text also appears
as separate `text` events, exactly as `next_elements` yields it. -/
/-- Source: `str.startswith` (kernel-evaluable form). -/
def strStartsWith (s pfx : String) : Bool := pfx.data.isPrefixOf s.data

inductive Node where
  | text (s : String)
  | anchor (nm : String)
  | div (cls : List String) (txt : String)
  | elem (txt : String)
deriving DecidableEq, Repr

/-- Source: `get_text(" ", strip=True)` of a node viewed as a Tag: anchors are
contentless. -/
def nodeText : Node → String
  | .text s => s
  | .anchor _ => ""
  | .div _ t => t
  | .elem t => t

/-- Source: `soup.find("a", {"name": nm})`, returning the events after the first
matching anchor (its `next_elements`). -/
def afterAnchor (nm : String) : List Node → Option (List Node)
  | [] => none
  | .anchor nm2 :: rest => if nm2 == nm then some rest else afterAnchor nm rest
  | _ :: rest => afterAnchor nm rest

/-- The collection loop of `_section_text` (and of `_item7_text`, which
duplicates it): `str(n)` for strings, `n.get_text(" ", strip=True)` for
tags, stopping before the first `<a>` whose name attribute starts with
`"partIIIitem"` and which differs from the starting anchor (structural
tag inequality = name inequality for contentless anchors). -/
def collectBits (nm : String) : List Node → List String
  | [] => []
  | .text s :: rest => s :: collectBits nm rest
  | .anchor nm2 :: rest =>
    if strStartsWith nm2 "partIIIitem" && nm2 != nm then []
    else "" :: collectBits nm rest
  | .div _ t :: rest => t :: collectBits nm rest
  | .elem t :: rest => t :: collectBits nm rest

/-- Source: `_section_text(soup, anchor_name)` (lines 343–356 of
`seminar_parse.py`): empty string when the anchor is absent, otherwise
`" ".join(bits)`. -/
def section_text (nodes : List Node) (anchorName : String) : String :=
  match afterAnchor anchorName nodes with
  | none => ""
  | some rest => String.intercalate " " (collectBits anchorName rest)

/-- Source: `_item7_text` duplicates `_section_text`'s traversal with the fixed
anchor `partIIIitem7`. -/
def item7_text (nodes : List Node) : String := section_text nodes "partIIIitem7"

/-- The scanning loop of `_item13_text`: strings are skipped; the first
`<div class="fakeBox3">` returns its text; any later item anchor breaks
(`sib is not anchor` compares object identity, and every visited node is
a distinct object). -/
def item13Collect : List Node → String
  | [] => ""
  | .text _ :: rest => item13Collect rest
  | .div cls t :: rest =>
    if cls == ["fakeBox3"] then t else item13Collect rest
  | .anchor nm2 :: rest =>
    if strStartsWith nm2 "partIIIitem" then "" else item13Collect rest
  | .elem _ :: rest => item13Collect rest

/-- Source: `_item13_text` (lines 446–463). -/
def item13_text (nodes : List Node) : String :=
  match afterAnchor "partIIIitem13" nodes with
  | none => ""
  | some rest => item13Collect rest

/-! ## Segmentation extraction (`SEG_TAG_PATTERNS`, `_extract_segmentation_features`) -/

/-- Source: `SEG_TAG_PATTERNS`, in source order, as engine patterns (the joined
alternation `re.compile("|".join(SEG_TAG_PATTERNS), re.I)` tries them in
this order at each position). -/
def SEG_TAG_PATTERNS : List (List RElem) := [
  lits "taker" ++ [.wsPlus] ++ lits "level",
  lits "taker" ++ [.wsPlus] ++ lits "category",
  lits "inclusion" ++ [.wsPlus] ++ lits "level",
  lits "contra" ++ [.wsPlus] ++ lits "category",
  lits "counterparty" ++ [.wsPlus] ++ lits "classification",
  lits "mark" ++ [.optCls ['-', ' ']] ++ lits "out" ++ [.wsPlus] ++ lits "analysis",
  lits "category" ++ [.wsPlus] ++ lits "id",
  lits "taker" ++ [.wsPlus] ++ lits "token",
  lits "order" ++ [.wsPlus] ++ lits "type" ++ [.wsPlus] ++ lits "segmentation",
  lits "participant" ++ [.wsPlus] ++
    [.altLits ["type".data, "class".data, "segmentation".data]],
  lits "counterparty" ++ [.wsPlus] ++ lits "restriction",
  lits "segmentation" ++ [.wsPlus] ++
    [.altLits ["token".data, "label".data, "category".data]]]

/-- First pattern of the alternation matching at the current position
(no `\b` anchors in these patterns). -/
def segMatchAt (pats : List (List RElem)) (s : List Char) :
    Option (List Char × List Char) :=
  match pats with
  | [] => none
  | es :: rest =>
    match matchSeq es s with
    | some pr => some pr
    | none => segMatchAt rest s

/-- Source: `_seg_token_rx.finditer`: non-overlapping left-to-right scan
collecting `m.group(0)`; fuel equals remaining length (every match
consumes at least one character). -/
def segFindIter : Nat → List Char → List (List Char)
  | 0, _ => []
  | _ + 1, [] => []
  | fuel + 1, c :: t =>
    match segMatchAt SEG_TAG_PATTERNS (c :: t) with
    | some (m, rest) => m :: segFindIter fuel rest
    | none => segFindIter fuel t

/-- All `m.group(0)` matches of the segmentation alternation in `prose`. -/
def segMatches (prose : List Char) : List (List Char) :=
  segFindIter prose.length prose

/-- Source: `sorted({m.group(0).lower() for m in _seg_token_rx.finditer(prose)})`. -/
def segTokens (prose : List Char) : List String :=
  sortedSet ((segMatches prose).map strLowerL)

/-- The `segmentation_tags` value of `_extract_segmentation_features`:
`", ".join(tokens) if tokens else "None detected"`. -/
def segmentationTags (prose : List Char) : String :=
  if segTokens prose ≠ [] then String.intercalate ", " (segTokens prose)
  else "None detected"

/-- The `data_segmentation_practices` value:
`(prose[:400] + "…") if len(prose) > 400 else prose or "No narrative provided"`. -/
def segPractices (prose : List Char) : String :=
  if prose.length > 400 then ⟨prose.take 400⟩ ++ "…"
  else if prose ≠ [] then ⟨prose⟩ else "No narrative provided"

/-- Source: `_extract_segmentation_features(soup, res)` (lines 468–490): pops the
five radio answers out of the working dict and returns (the mutated
dict, the features dict to be merged). -/
def extract_segmentation_features (nodes : List Node) (res : Dict) :
    Dict × List (String × String) :=
  let prose := (item13_text nodes).data
  let keys : List String := ["segmentation_supported", "segmentation_uniform",
    "segmentation_customer_flag", "segmentation_disclosed", "segmentation_disclosure_uniform"]
  let popped := keys.map (fun k => (k, dgetD res k "Unclear"))
  let res2 := keys.foldl (fun d k => ddel d k) res
  (res2, popped ++
    [("segmentation_tags", segmentationTags prose),
     ("data_segmentation_practices", segPractices prose)])

/-! ## Display/feed block and the master extractor -/

/-- The outcomes of the raw-text regex scans inside
`_extract_display_features` (`mech` regex search, public/private
classification, `_discover_feed_tokens`), abstracted as oracle data:
those scans read the concatenated narrative text and contribute only the
three display values below; no claim depends on their internals. -/
structure DisplayScan where
  mech : Option String
  pubPriv : String
  feeds : List String

/-- The dict returned by `_extract_display_features` (insertion order of
the source literal; the commented-out keys are absent). -/
def displayDict (d : DisplayScan) : List (String × String) :=
  [("display_mechanism", d.mech.getD "Unspecified mechanism"),
   ("display_public_private_guess", d.pubPriv),
   ("display_feed_names",
    if d.feeds.isEmpty then "None" else String.intercalate ", " d.feeds)]

/-- Source: `REGEX_FEATURES` keys, in dict insertion order (the later
re-assignment of `market_data_feed_available` keeps its position). -/
def REGEX_KEYS : List String :=
  ["offers_hosted_pool", "supports_iois", "custom_order_types",
   "market_data_feed_available"]

/-- One parsed filing, at the granularity the extractor consumes: the
labeled radio rows (`RadioMatrix` input), the flat node-event sequence
(section traversals), one Boolean per `REGEX_FEATURES` key for
`re.search(pattern, html, re.IGNORECASE)` over the raw markup string,
and the display-scan outcomes. -/
structure Doc where
  radioRows : List RadioRow
  nodes : List Node
  regexHit : String → Bool
  displayScan : DisplayScan

/-- Source: `YES_NO_QUESTIONS[k]`. -/
def qfrag (k : String) : String := (YES_NO_QUESTIONS.lookup k).getD ""

/-- Step 4-b of `extract_features_from_html`: resolve every question in
order; a raise inside `_radio_yes_no` propagates. -/
def fillYesNo (rows : List (String × RadioRow)) :
    List (String × String) → Dict → Except Unit Dict
  | [], d => .ok d
  | (k, q) :: rest, d => do
    let v ← radio_yes_no rows q
    fillYesNo rows rest (dset d k (bool_to_word v))

/-- Source: `extract_features_from_html` (lines 497–536 of `seminar_parse.py`).
`ats_id`/`year` are the optional caller-supplied identifiers (`if ats_id:`
and `if year:` use Python truthiness; the `year` int is stored by its
decimal representation here).  Any raise inside radio resolution
propagates as `Except.error`. -/
def extract_features_from_html (doc : Doc) (atsId : Option String)
    (year : Option Int) : Except Unit Dict := do
  let rows := buildRows doc.radioRows
  let r0 : Dict := []
  let r1 := match atsId with
    | some a => if a != "" then dset r0 "ats_id" a else r0
    | none => r0
  let r2 := match year with
    | some y => if y != 0 then dset r1 "year" (toString y) else r1
    | none => r1
  let r3 := REGEX_KEYS.foldl
    (fun d k => dset d k (if doc.regexHit k then "Yes" else "No")) r2
  let r4 ← fillYesNo rows YES_NO_QUESTIONS r3
  let bdo ← radio_yes_no rows (qfrag "subscriber_opt_out_bdo")
  let aff ← radio_yes_no rows (qfrag "subscriber_opt_out_affiliate")
  let r5 := dset (ddel (ddel r4 "subscriber_opt_out_bdo") "subscriber_opt_out_affiliate")
    "subscriber_opt_out_capability" (subscriberOptOutCompose bdo aff)
  let sup ← radio_yes_no rows (qfrag "counterparty_selection_supported")
  let uni ← radio_yes_no rows (qfrag "counterparty_selection_uniform")
  let r6 := dset (ddel (ddel r5 "counterparty_selection_supported")
      "counterparty_selection_uniform")
    "counterparty_selection" (counterpartyCompose sup uni)
  let a ← radio_yes_no rows (qfrag "internal_trading_allowed")
  let b ← radio_yes_no rows (qfrag "affiliate_access_to_ats")
  let c ← radio_yes_no rows (qfrag "routing_to_affiliate_venue")
  let r7 := dmerge r6 (internalTradingDict a b c)
  let hs ← radio_yes_no rows (qfrag "supports_iois")
  let ut ← radio_yes_no rows (qfrag "ioi_uniform_treatment")
  let r8 := dset (ddel (ddel r7 "supports_iois") "ioi_uniform_treatment")
    "supports_iois" (ioiCompose hs ut)
  let r9 := dmerge r8 (parse_order_type_features (item7_text doc.nodes).data)
  let r10 := dmerge r9 (displayDict doc.displayScan)
  let pr := extract_segmentation_features doc.nodes r10
  pure (dmerge pr.1 pr.2)

/-! ## Resolution lemmas -/

instance {e a : Type} [DecidableEq e] [DecidableEq a] : DecidableEq (Except e a) :=
  fun x y =>
    match x, y with
    | .error e1, .error e2 =>
      if h : e1 = e2 then isTrue (by rw [h]) else isFalse (by intro hc; cases hc; exact h rfl)
    | .ok v1, .ok v2 =>
      if h : v1 = v2 then isTrue (by rw [h]) else isFalse (by intro hc; cases hc; exact h rfl)
    | .error _, .ok _ => isFalse (by intro hc; cases hc)
    | .ok _, .error _ => isFalse (by intro hc; cases hc)

theorem radioYesNoAux_append {frag : String} {pre rows : List (String × RadioRow)}
    (h : ∀ p ∈ pre, pyInStr frag p.1 = false) :
    radioYesNoAux frag (pre ++ rows) = radioYesNoAux frag rows := by
  induction pre with
  | nil => rfl
  | cons p t ih =>
    have hp := h p (by simp)
    show radioYesNoAux frag ((p.1, p.2) :: (t ++ rows)) = _
    rw [radioYesNoAux, if_neg (by simp [hp])]
    exact ih (fun q hq => h q (by simp [hq]))

theorem radioYesNoAux_nomatch {frag : String} {rows : List (String × RadioRow)}
    (h : ∀ p ∈ rows, pyInStr frag p.1 = false) :
    radioYesNoAux frag rows = .ok none := by
  induction rows with
  | nil => rfl
  | cons p t ih =>
    show radioYesNoAux frag ((p.1, p.2) :: t) = _
    rw [radioYesNoAux, if_neg (by simp [h p (by simp)])]
    exact ih (fun q hq => h q (by simp [hq]))

theorem radioYesNoAux_cons_match {frag lab : String} {r : RadioRow}
    {rest : List (String × RadioRow)} (h : pyInStr frag lab = true) :
    radioYesNoAux frag ((lab, r) :: rest) = rowAnswer r.checked := by
  rw [radioYesNoAux, if_pos h]

/-- The first matching row decides the answer; rows before it do not
match, rows after it are never consulted. -/
theorem radio_first_match {pre post : List RadioRow} {r : RadioRow} {frag : String}
    (hpre : ∀ q ∈ pre, pyInStr (normaliseS frag) (normaliseS q.label) = false)
    (hr : pyInStr (normaliseS frag) (normaliseS r.label) = true) :
    radio_yes_no (buildRows (pre ++ r :: post)) frag = rowAnswer r.checked := by
  rw [radio_yes_no, buildRows, List.map_append, List.map_cons]
  rw [radioYesNoAux_append (by
    intro p hp
    obtain ⟨q, hq, rfl⟩ := List.mem_map.mp hp
    exact hpre q hq)]
  exact radioYesNoAux_cons_match hr

/-! ## Claim C5 -/

/-- C5: resolution consults only the first row whose normalised label
contains the normalised fragment — the result equals that row's own
answer, independently of every later (duplicate) row, even when that
answer is Unknown (no checked marker) — and a fragment matching zero
rows yields Unknown (`None`), not an error. -/
theorem C5_first_match_wins :
    (∀ (pre post : List RadioRow) (r : RadioRow) (frag : String),
      (∀ q ∈ pre, pyInStr (normaliseS frag) (normaliseS q.label) = false) →
      pyInStr (normaliseS frag) (normaliseS r.label) = true →
      radio_yes_no (buildRows (pre ++ r :: post)) frag = rowAnswer r.checked) ∧
    (∀ (rows : List RadioRow) (frag : String),
      (∀ q ∈ rows, pyInStr (normaliseS frag) (normaliseS q.label) = false) →
      radio_yes_no (buildRows rows) frag = .ok none) := by
  constructor
  · intro pre post r frag hpre hr
    exact radio_first_match hpre hr
  · intro rows frag h
    rw [radio_yes_no, buildRows]
    exact radioYesNoAux_nomatch (by
      intro p hp
      obtain ⟨q, hq, rfl⟩ := List.mem_map.mp hp
      exact h q hq)

/-- C5 witness: with a non-matching first row, an Unknown-answered
(no checked marker) second row, and a Yes-answered duplicate third row,
resolution returns Unknown from the second row and ignores the third;
and an unmatched fragment yields Unknown. -/
theorem C5_witness :
    radio_yes_no (buildRows
      [⟨"other question", some (some (.text "Yes"))⟩,
       ⟨"duplicate label", none⟩,
       ⟨"the duplicate label row", some (some (.text "Yes"))⟩]) "duplicate label"
      = .ok none ∧
    radio_yes_no (buildRows [⟨"other question", some (some (.text "Yes"))⟩]) "absent"
      = .ok none := by
  constructor
  · exact C5_first_match_wins.1 [⟨"other question", some (some (.text "Yes"))⟩]
      [⟨"the duplicate label row", some (some (.text "Yes"))⟩]
      ⟨"duplicate label", none⟩ "duplicate label"
      (by decide) (by decide)
  · exact C5_first_match_wins.2 [⟨"other question", some (some (.text "Yes"))⟩]
      "absent" (by decide)

/-! ## Claim C3 -/

/-- C3 counterexample: the fragment `"oob"` is a proper substring of the
label `"foobar"`, which does not begin with a lettered-subitem prefix
(a letter followed by a period); under the claim this row would not
match and resolution would return Unknown, but the code's matching rule
is plain substring containment, so the row is consulted and resolution
returns Yes. -/
theorem C3_counterexample :
    radio_yes_no (buildRows [⟨"foobar", some (some (.text "Yes"))⟩]) "oob"
        = .ok (some true) ∧
    radio_yes_no (buildRows [⟨"foobar", some (some (.text "Yes"))⟩]) "oob"
        ≠ .ok none := by
  constructor
  · decide
  · decide

/-- C3 amended: a row is treated as a match exactly when the normalised
fragment is a substring of its normalised label (equality is the special
case of full containment); no lettered-subitem prefix condition applies.
Containment alone makes the head row the consulted one, and a
non-containing head row is skipped. -/
theorem C3_substring_matching :
    (∀ (r : RadioRow) (rest : List RadioRow) (frag : String),
      pyInStr (normaliseS frag) (normaliseS r.label) = true →
      radio_yes_no (buildRows (r :: rest)) frag = rowAnswer r.checked) ∧
    (∀ (r : RadioRow) (rest : List RadioRow) (frag : String),
      pyInStr (normaliseS frag) (normaliseS r.label) = false →
      radio_yes_no (buildRows (r :: rest)) frag = radio_yes_no (buildRows rest) frag) := by
  constructor
  · intro r rest frag hr
    exact @radio_first_match [] rest r frag (by simp) hr
  · intro r rest frag hr
    rw [radio_yes_no, buildRows, List.map_cons, radioYesNoAux, if_neg (by simp [hr])]
    rfl

/-- C3 witness: instantiates the amended rule at the counterexample's
row: `"oob"` is contained in `"foobar"` without any lettered prefix, and
the head row answers; a fragment not contained in the head label skips
to the rest. -/
theorem C3_witness :
    radio_yes_no (buildRows (⟨"foobar", some (some (.text "Yes"))⟩ :: [])) "oob"
        = rowAnswer (some (some (.text "Yes"))) ∧
    radio_yes_no (buildRows (⟨"foobar", some (some (.text "Yes"))⟩ :: [])) "xyz"
        = radio_yes_no (buildRows []) "xyz" := by
  constructor
  · exact C3_substring_matching.1 ⟨"foobar", some (some (.text "Yes"))⟩ [] "oob" (by decide)
  · exact C3_substring_matching.2 ⟨"foobar", some (some (.text "Yes"))⟩ [] "xyz" (by decide)

/-! ## Claim C1 -/

/-- C1 counterexample: a matched row whose selected marker is followed by
the text `"N/A"` resolves to No (`some false`), not Unknown as the claim
states; a matched row whose marker has no following node at all also
resolves to No, not Unknown. -/
theorem C1_counterexample :
    (radio_yes_no (buildRows [⟨"q1", some (some (.text "N/A"))⟩]) "q1"
        = .ok (some false) ∧
      radio_yes_no (buildRows [⟨"q1", some (some (.text "N/A"))⟩]) "q1"
        ≠ .ok none) ∧
    (radio_yes_no (buildRows [⟨"q2", some none⟩]) "q2" = .ok (some false) ∧
      radio_yes_no (buildRows [⟨"q2", some none⟩]) "q2" ≠ .ok none) := by
  exact ⟨⟨by decide, by decide⟩, ⟨by decide, by decide⟩⟩

/-- C1 amended: when the first matching row contains a selected-choice
marker, resolution inspects only the marker's immediate next sibling:
a text sibling yields Yes exactly when it contains `"yes"`
case-insensitively and No otherwise (so `"no"`, `"N/A"`, blank text and
a missing sibling all yield No); an element sibling raises; once a
marker is present the answer is never Unknown.  There is no forward
walking past blank text nodes. -/
theorem C1_marker_sibling_rule :
    ∀ (pre post : List RadioRow) (r : RadioRow) (frag : String) (sib : Option Sib),
      (∀ q ∈ pre, pyInStr (normaliseS frag) (normaliseS q.label) = false) →
      pyInStr (normaliseS frag) (normaliseS r.label) = true →
      r.checked = some sib →
      (∀ s, sib = some (.text s) →
        radio_yes_no (buildRows (pre ++ r :: post)) frag
          = .ok (some (pyInStr "yes" (strLower s)))) ∧
      (sib = none →
        radio_yes_no (buildRows (pre ++ r :: post)) frag = .ok (some false)) ∧
      (sib = some .elem →
        radio_yes_no (buildRows (pre ++ r :: post)) frag = .error ()) ∧
      radio_yes_no (buildRows (pre ++ r :: post)) frag ≠ .ok none := by
  intro pre post r frag sib hpre hr hchk
  have hres := @radio_first_match pre post r frag hpre hr
  rw [hchk] at hres
  refine ⟨?_, ?_, ?_, ?_⟩
  · intro s hs
    rw [hres, hs]
    rfl
  · intro hs
    rw [hres, hs]
    rfl
  · intro hs
    rw [hres, hs]
    rfl
  · rw [hres]
    cases sib with
    | none => simp [rowAnswer]
    | some sb => cases sb <;> simp [rowAnswer]

/-- C1 witness: instantiates the amended rule on a concrete index with a
non-matching first row and an `"N/A"`-followed marker in the matching
row: the answer is `No`, not Unknown. -/
theorem C1_witness :
    radio_yes_no (buildRows
      [⟨"other", some (some (.text "Yes"))⟩, ⟨"q1", some (some (.text "N/A"))⟩]) "q1"
      = .ok (some (pyInStr "yes" (strLower "N/A"))) ∧
    pyInStr "yes" (strLower "N/A") = false := by
  constructor
  · exact (C1_marker_sibling_rule [⟨"other", some (some (.text "Yes"))⟩] []
      ⟨"q1", some (some (.text "N/A"))⟩ "q1" (some (.text "N/A"))
      (by decide) (by decide) rfl).1 "N/A" rfl
  · decide

/-! ## Claim C4 -/

set_option maxRecDepth 10000

/-- C4 counterexample: each hyphen is replaced by its own space, so
`"a--b"` normalises to `"a  b"` (two spaces), and a second pass collapses
the space run: the normaliser is not idempotent. -/
theorem C4_counterexample :
    normaliseS "a--b" = "a  b" ∧
    normaliseS (normaliseS "a--b") = "a b" ∧
    normaliseS (normaliseS "a--b") ≠ normaliseS "a--b" := by
  refine ⟨by decide, by decide, by decide⟩

/-- C4 amended: on strings containing no hyphen-family character the
normaliser is idempotent (whitespace runs collapse to single spaces,
lowercasing and trimming are stable); idempotence fails in general only
because each hyphen-family character is replaced by its own space, so
adjacent hyphens (or a hyphen adjacent to whitespace) produce a
multi-space run that a second pass collapses. -/
theorem C4_idempotent_on_hyphen_free (s : String)
    (hnh : ∀ c ∈ s.data, isHyphenC c = false) :
    normaliseS (normaliseS s) = normaliseS s := by
  show (⟨normalise (normaliseS s).data⟩ : String) = ⟨normalise s.data⟩
  have : (normaliseS s).data = normalise s.data := rfl
  rw [this, normalise_fix_of_noHyphen s.data hnh]

/-- C4 witness: idempotence at a concrete hyphen-free string with case,
multi-space runs and surrounding whitespace. -/
theorem C4_witness :
    normaliseS (normaliseS "  Collapse   THIS  label ") = normaliseS "  Collapse   THIS  label " :=
  C4_idempotent_on_hyphen_free "  Collapse   THIS  label " (by decide)

/-! ## Claim C2 -/

/-- A document whose only labeled row matches the first question
fragment and whose selected marker is immediately followed by an element
node (e.g. `<img src="radio-checked…"/><b>Yes</b>`). -/
def c2FailDoc : Doc :=
  { radioRows := [⟨"Can any Subscriber opt out from interacting with orders and trading interest of the Broker-Dealer Operator",
      some (some .elem)⟩],
    nodes := [],
    regexHit := fun _ => false,
    displayScan := { mech := none, pubPriv := "unclear", feeds := [] } }

/-- C2: evaluating the extractor at the failing document: resolution of
the very first Yes/No question reaches `(img.next_sibling or "").lower()`
with a Tag sibling and raises (bs4 resolves `Tag.lower` via
`Tag.__getattr__` to `find("lower") = None`, which is then called), so
`extract_features_from_html` raises instead of returning a feature
mapping — contradicting the claim that stages after parsing never raise
and tolerate intervening non-text nodes. -/
theorem C2_raises_on_element_sibling :
    extract_features_from_html c2FailDoc none none = .error () ∧
    rowAnswer (some (some .elem)) = .error () := by
  exact ⟨by decide, rfl⟩

/-! ## Claim C6 -/

theorem except_bind_ok {A B : Type} {x : Except Unit A} {f : A → Except Unit B} {b : B}
    (h : (x >>= f) = .ok b) : ∃ a, x = .ok a ∧ f a = .ok b := by
  cases x with
  | error e =>
    simp only [Bind.bind, Except.bind] at h
    exact (Except.noConfusion h)
  | ok a =>
    refine ⟨a, rfl, ?_⟩
    simpa only [Bind.bind, Except.bind] using h

/-- C6: whenever extraction returns a mapping, none of the five consumed
atomic keys survives in it — each composer deleted the atomic keys it
consumed and no later stage re-adds them. -/
theorem C6_no_atomic_leak (doc : Doc) (atsId : Option String) (year : Option Int)
    (m : Dict) (h : extract_features_from_html doc atsId year = .ok m) :
    containsK m "subscriber_opt_out_bdo" = false ∧
    containsK m "subscriber_opt_out_affiliate" = false ∧
    containsK m "counterparty_selection_supported" = false ∧
    containsK m "counterparty_selection_uniform" = false ∧
    containsK m "ioi_uniform_treatment" = false := by
  unfold extract_features_from_html at h
  obtain ⟨r4, h4, h⟩ := except_bind_ok h
  obtain ⟨bdo, hbdo, h⟩ := except_bind_ok h
  obtain ⟨aff, haff, h⟩ := except_bind_ok h
  obtain ⟨sup, hsup, h⟩ := except_bind_ok h
  obtain ⟨uni, huni, h⟩ := except_bind_ok h
  obtain ⟨a, ha, h⟩ := except_bind_ok h
  obtain ⟨b, hb, h⟩ := except_bind_ok h
  obtain ⟨c, hc, h⟩ := except_bind_ok h
  obtain ⟨hs, hhs, h⟩ := except_bind_ok h
  obtain ⟨ut, hut, h⟩ := except_bind_ok h
  simp only [pure, Except.pure, Except.ok.injEq] at h
  subst h
  refine ⟨?_, ?_, ?_, ?_, ?_⟩ <;>
    simp [extract_segmentation_features, parse_order_type_features, displayDict,
      internalTradingDict, ORDER_TYPE_PATTERNS, containsK_dmerge, containsK_dset,
      containsK_ddel]

/-- A minimal document: no labeled rows, no nodes, no regex hits. -/
def emptyDoc : Doc :=
  { radioRows := [], nodes := [], regexHit := fun _ => false,
    displayScan := { mech := none, pubPriv := "unclear", feeds := [] } }

/-- Whether an extraction result is a mapping avoiding all keys of `ks`. -/
def keysAbsentIn (e : Except Unit Dict) (ks : List String) : Bool :=
  match e with
  | .ok m => ks.all (fun k => !(containsK m k))
  | .error _ => false

/-- C6 witness: extraction succeeds on the minimal document and its
mapping contains none of the five atomic keys. -/
theorem C6_witness :
    keysAbsentIn (extract_features_from_html emptyDoc none none)
      ["subscriber_opt_out_bdo", "subscriber_opt_out_affiliate",
       "counterparty_selection_supported", "counterparty_selection_uniform",
       "ioi_uniform_treatment"] = true := by
  have hok : (extract_features_from_html emptyDoc none none).isOk = true := by decide
  cases hE : extract_features_from_html emptyDoc none none with
  | error e =>
    rw [hE] at hok
    simp [Except.isOk, Except.toBool] at hok
  | ok m =>
    have h5 := C6_no_atomic_leak emptyDoc none none m hE
    simp [keysAbsentIn, h5.1, h5.2.1, h5.2.2.1, h5.2.2.2.1, h5.2.2.2.2]

/-! ## Claim C7 -/

/-- C7: the two-question opt-out composer's case analysis is exhaustive
over the tri-states: the four determinate combinations each yield their
fixed sentence, and any combination with an Unknown answer (on either
side) yields exactly the `"Unclear"` sentence. -/
theorem C7_opt_out_exhaustive :
    subscriberOptOutCompose (some true) (some true)
      = "Yes — Subscriber can opt out of both the ATS operator and its affiliates" ∧
    subscriberOptOutCompose (some true) (some false)
      = "Yes — Subscriber can opt out of ATS operator but not affiliates" ∧
    subscriberOptOutCompose (some false) (some true)
      = "Yes — Subscriber can opt out of affiliates but not ATS operator" ∧
    subscriberOptOutCompose (some false) (some false)
      = "No — Subscriber cannot opt out from either" ∧
    (∀ bdo aff : Option Bool, bdo = none ∨ aff = none →
      subscriberOptOutCompose bdo aff = "Unclear") := by
  refine ⟨by decide, by decide, by decide, by decide, ?_⟩
  intro bdo aff h
  rcases h with h | h <;> subst h
  · simp [subscriberOptOutCompose]
  · cases bdo with
    | none => simp [subscriberOptOutCompose]
    | some v => cases v <;> simp [subscriberOptOutCompose]

/-- C7 witness: `(Yes, Unknown)` yields the `"Unclear"` sentence. -/
theorem C7_witness :
    subscriberOptOutCompose (some true) none = "Unclear" :=
  C7_opt_out_exhaustive.2.2.2.2 (some true) none (Or.inr rfl)

/-! ## Claim C8 -/

/-- C8: evaluation of the unknown-token scan at the failing input
`"ZEBRA order AAA order"`: exactly the two candidate tokens `AAA` and
`ZEBRA` survive the detected-category and stopword filters (shown here
in the sorted order of the scan's intermediate `sorted({…})` step —
the source's final `list({…})` re-wraps them in a Python set whose
iteration order is unspecified, so the emitted list is not guaranteed to
be sorted).  The membership part of the claim holds: `FOOBAR order`
surfaces `FOOBAR` and `MARKET order` surfaces nothing. -/
theorem C8_failing_input_eval :
    unknownSurvivors "ZEBRA order AAA order".data [] = ["AAA", "ZEBRA"] ∧
    (parse_order_type_features "FOOBAR order".data).lookup "unrecognised_custom_orders"
      = some "FOOBAR" ∧
    (parse_order_type_features "MARKET order".data).lookup "unrecognised_custom_orders"
      = some "None" := by
  refine ⟨by decide, by decide, by decide⟩

/-! ## Claim C9 -/

theorem afterAnchor_of_not_mem {nm : String} {nodes : List Node}
    (h : ∀ n ∈ nodes, n ≠ Node.anchor nm) : afterAnchor nm nodes = none := by
  induction nodes with
  | nil => rfl
  | cons n rest ih =>
    cases n with
    | anchor nm2 =>
      have hne : nm2 ≠ nm := by
        intro he
        exact absurd rfl (he ▸ h (Node.anchor nm2) (by simp))
      rw [afterAnchor, if_neg (by simp [hne])]
      exact ih (fun q hq => h q (by simp [hq]))
    | text s => exact ih (fun q hq => h q (by simp [hq]))
    | div cls t => exact ih (fun q hq => h q (by simp [hq]))
    | elem t => exact ih (fun q hq => h q (by simp [hq]))

theorem afterAnchor_append_of_not_mem {nm : String} {pre rest : List Node}
    (h : Node.anchor nm ∉ pre) :
    afterAnchor nm (pre ++ rest) = afterAnchor nm rest := by
  induction pre with
  | nil => rfl
  | cons n t ih =>
    have hn : n ≠ Node.anchor nm := fun he => h (by simp [he])
    have ht : Node.anchor nm ∉ t := fun hm => h (by simp [hm])
    cases n with
    | anchor nm2 =>
      have hne : nm2 ≠ nm := fun he => hn (by rw [he])
      show afterAnchor nm (Node.anchor nm2 :: (t ++ rest)) = _
      rw [afterAnchor, if_neg (by simp [hne])]
      exact ih ht
    | text s => exact ih ht
    | div cls txt => exact ih ht
    | elem txt => exact ih ht

theorem afterAnchor_cons_self (nm : String) (rest : List Node) :
    afterAnchor nm (Node.anchor nm :: rest) = some rest := by
  rw [afterAnchor, if_pos (by simp)]

/-- A node list containing no item anchor that differs from `nm`. -/
def noBreakIn (nm : String) (l : List Node) : Prop :=
  ∀ x, Node.anchor x ∈ l → strStartsWith x "partIIIitem" = true → x = nm

theorem collectBits_no_break {nm : String} {mid : List Node}
    (h : noBreakIn nm mid) : collectBits nm mid = mid.map nodeText := by
  induction mid with
  | nil => rfl
  | cons n t ih =>
    have ht : noBreakIn nm t := fun x hx hs => h x (by simp [hx]) hs
    cases n with
    | anchor nm2 =>
      have : (strStartsWith nm2 "partIIIitem" && nm2 != nm) = false := by
        by_cases hs : strStartsWith nm2 "partIIIitem" = true
        · have he := h nm2 (by simp) hs
          simp [he]
        · simp [hs]
      rw [collectBits, if_neg (by simp [this])]
      rw [ih ht]
      rfl
    | text s =>
      show s :: collectBits nm t = _
      rw [ih ht]
      rfl
    | div cls txt =>
      show txt :: collectBits nm t = _
      rw [ih ht]
      rfl
    | elem txt =>
      show txt :: collectBits nm t = _
      rw [ih ht]
      rfl

theorem collectBits_until_break {nm nm2 : String} {mid post : List Node}
    (h : noBreakIn nm mid) (hs : strStartsWith nm2 "partIIIitem" = true) (hne : nm2 ≠ nm) :
    collectBits nm (mid ++ Node.anchor nm2 :: post) = mid.map nodeText := by
  induction mid with
  | nil =>
    show collectBits nm (Node.anchor nm2 :: post) = []
    rw [collectBits, if_pos (by simp [hs, hne])]
  | cons n t ih =>
    have ht : noBreakIn nm t := fun x hx hxs => h x (by simp [hx]) hxs
    cases n with
    | anchor nmx =>
      have : (strStartsWith nmx "partIIIitem" && nmx != nm) = false := by
        by_cases hxs : strStartsWith nmx "partIIIitem" = true
        · have he := h nmx (by simp) hxs
          simp [he]
        · simp [hxs]
      show collectBits nm (Node.anchor nmx :: (t ++ Node.anchor nm2 :: post)) = _
      rw [collectBits, if_neg (by simp [this]), ih ht]
      rfl
    | text s =>
      show s :: collectBits nm (t ++ Node.anchor nm2 :: post) = _
      rw [ih ht]
      rfl
    | div cls txt =>
      show txt :: collectBits nm (t ++ Node.anchor nm2 :: post) = _
      rw [ih ht]
      rfl
    | elem txt =>
      show txt :: collectBits nm (t ++ Node.anchor nm2 :: post) = _
      rw [ih ht]
      rfl

/-- C9: section extraction returns `""` (not an error) when the named
anchor is absent; when present, it accumulates the per-node visible text
(space-joined, exactly as `" ".join(bits)`) from the anchor forward up to
but excluding the first item anchor whose name differs from the starting
one; and when no such differing item anchor follows, it runs to the end
of the document. -/
theorem C9_section_extraction :
    (∀ (nodes : List Node) (nm : String),
      (∀ n ∈ nodes, n ≠ Node.anchor nm) → section_text nodes nm = "") ∧
    (∀ (pre mid post : List Node) (nm nm2 : String),
      Node.anchor nm ∉ pre → noBreakIn nm mid →
      strStartsWith nm2 "partIIIitem" = true → nm2 ≠ nm →
      section_text (pre ++ Node.anchor nm :: (mid ++ Node.anchor nm2 :: post)) nm
        = String.intercalate " " (mid.map nodeText)) ∧
    (∀ (pre mid : List Node) (nm : String),
      Node.anchor nm ∉ pre → noBreakIn nm mid →
      section_text (pre ++ Node.anchor nm :: mid) nm
        = String.intercalate " " (mid.map nodeText)) := by
  refine ⟨?_, ?_, ?_⟩
  · intro nodes nm h
    rw [section_text, afterAnchor_of_not_mem h]
  · intro pre mid post nm nm2 hpre hmid hs hne
    rw [section_text, afterAnchor_append_of_not_mem hpre, afterAnchor_cons_self]
    show String.intercalate " " (collectBits nm (mid ++ Node.anchor nm2 :: post)) = _
    rw [collectBits_until_break hmid hs hne]
  · intro pre mid nm hpre hmid
    rw [section_text, afterAnchor_append_of_not_mem hpre, afterAnchor_cons_self]
    show String.intercalate " " (collectBits nm mid) = _
    rw [collectBits_no_break hmid]

/-- C9 witness: a missing anchor yields `""`; a bounded section stops
before the next differing item anchor (exclusive); a document whose only
item anchor is the starting one yields all trailing text. -/
theorem C9_witness :
    section_text [Node.text "x", Node.elem "y"] "partIIIitem7" = "" ∧
    section_text
      [Node.text "before", Node.anchor "partIIIitem7", Node.elem "inside",
       Node.text "also inside", Node.anchor "partIIIitem8", Node.text "outside"]
      "partIIIitem7" = "inside also inside" ∧
    section_text
      [Node.anchor "partIIIitem7", Node.elem "tail", Node.text "to end"]
      "partIIIitem7" = "tail to end" := by
  refine ⟨?_, ?_, ?_⟩
  · exact C9_section_extraction.1 [Node.text "x", Node.elem "y"] "partIIIitem7" (by decide)
  · have h := C9_section_extraction.2.1 [Node.text "before"]
      [Node.elem "inside", Node.text "also inside"] [Node.text "outside"]
      "partIIIitem7" "partIIIitem8" (by decide)
      (by intro x hx hs; simp at hx) (by decide) (by decide)
    simpa using h
  · have h := C9_section_extraction.2.2 [] [Node.elem "tail", Node.text "to end"]
      "partIIIitem7" (by decide) (by intro x hx hs; simp at hx)
    simpa using h

/-! ## Claim C10 -/

theorem listLt_irrefl : ∀ l : List Char, listLt l l = false
  | [] => rfl
  | c :: cs => by
    rw [listLt, if_neg (by omega), if_neg (by omega)]
    exact listLt_irrefl cs

theorem listLt_trans : ∀ {a b c : List Char},
    listLt a b = true → listLt b c = true → listLt a c = true
  | [], b, c, hab, hbc => by
    cases b with
    | nil => simp [listLt] at hab
    | cons y ys =>
      cases c with
      | nil => simp [listLt] at hbc
      | cons z zs => simp [listLt]
  | x :: xs, b, c, hab, hbc => by
    cases b with
    | nil => simp [listLt] at hab
    | cons y ys =>
      cases c with
      | nil => simp [listLt] at hbc
      | cons z zs =>
        rw [listLt] at hab hbc ⊢
        by_cases h1 : x.toNat < y.toNat
        · by_cases h2 : y.toNat < z.toNat
          · rw [if_pos (by omega)]
          · rw [if_neg h2] at hbc
            by_cases h3 : z.toNat < y.toNat
            · rw [if_pos h3] at hbc; exact absurd hbc (by simp)
            · rw [if_pos (by omega)]
        · rw [if_neg h1] at hab
          by_cases h1b : y.toNat < x.toNat
          · rw [if_pos h1b] at hab; exact absurd hab (by simp)
          · rw [if_neg h1b] at hab
            by_cases h2 : y.toNat < z.toNat
            · rw [if_pos (by omega)]
            · rw [if_neg h2] at hbc
              by_cases h3 : z.toNat < y.toNat
              · rw [if_pos h3] at hbc; exact absurd hbc (by simp)
              · rw [if_neg h3] at hbc
                rw [if_neg (by omega), if_neg (by omega)]
                exact listLt_trans hab hbc

theorem listLt_connex : ∀ {a b : List Char},
    listLt a b = false → listLt b a = false → a = b
  | [], [], _, _ => rfl
  | [], _ :: _, hab, _ => by simp [listLt] at hab
  | _ :: _, [], _, hba => by simp [listLt] at hba
  | x :: xs, y :: ys, hab, hba => by
    rw [listLt] at hab hba
    by_cases h1 : x.toNat < y.toNat
    · rw [if_pos h1] at hab; exact absurd hab (by simp)
    · rw [if_neg h1] at hab
      by_cases h2 : y.toNat < x.toNat
      · rw [if_pos h2] at hba; exact absurd hba (by simp)
      · rw [if_neg h2] at hab
        rw [if_neg h2, if_neg h1] at hba
        have hx : x = y := char_toNat_inj (by omega)
        rw [hx, listLt_connex hab hba]

theorem strLt_irrefl (a : String) : strLt a a = false := listLt_irrefl a.data

theorem strLt_trans {a b c : String} (h1 : strLt a b = true) (h2 : strLt b c = true) :
    strLt a c = true := listLt_trans h1 h2

theorem strLt_connex {a b : String} (h1 : strLt a b = false) (h2 : strLt b a = false) :
    a = b := by
  cases a with
  | mk da =>
    cases b with
    | mk db =>
      have := listLt_connex (a := da) (b := db) h1 h2
      rw [this]

theorem mem_insertSorted {x y : String} : ∀ {l : List String},
    (y ∈ insertSorted x l ↔ y = x ∨ y ∈ l)
  | [] => by simp [insertSorted]
  | z :: t => by
    rw [insertSorted]
    by_cases h1 : strLt x z = true
    · rw [if_pos h1]; simp
    · rw [if_neg h1]
      by_cases h2 : (x == z) = true
      · have hxz : x = z := by simpa using h2
        rw [if_pos h2]
        subst hxz
        simp
      · rw [if_neg h2]
        simp only [List.mem_cons]
        rw [mem_insertSorted (l := t)]
        tauto

theorem pairwise_insertSorted {x : String} : ∀ {l : List String},
    List.Pairwise (fun a b => strLt a b = true) l →
    List.Pairwise (fun a b => strLt a b = true) (insertSorted x l)
  | [], _ => by simp [insertSorted]
  | z :: t, hp => by
    have hz := (List.pairwise_cons.mp hp).1
    have ht := (List.pairwise_cons.mp hp).2
    rw [insertSorted]
    by_cases h1 : strLt x z = true
    · rw [if_pos h1]
      refine List.pairwise_cons.mpr ⟨?_, hp⟩
      intro b hb
      rcases List.mem_cons.mp hb with rfl | hb2
      · exact h1
      · exact strLt_trans h1 (hz b hb2)
    · rw [if_neg h1]
      by_cases h2 : (x == z) = true
      · rw [if_pos h2]; exact hp
      · rw [if_neg h2]
        have hzx : strLt z x = true := by
          by_cases h3 : strLt z x = true
          · exact h3
          · have := strLt_connex (by simpa using h3) (by simpa using h1)
            exact absurd this.symm (by simpa using h2)
        refine List.pairwise_cons.mpr ⟨?_, pairwise_insertSorted ht⟩
        intro b hb
        rcases mem_insertSorted.mp hb with rfl | hb2
        · exact hzx
        · exact hz b hb2

theorem sortedSet_pairwise (l : List String) :
    List.Pairwise (fun a b => strLt a b = true) (sortedSet l) := by
  induction l with
  | nil => exact List.Pairwise.nil
  | cons x t ih => exact pairwise_insertSorted ih

theorem sortedSet_nodup (l : List String) : (sortedSet l).Nodup := by
  refine (sortedSet_pairwise l).imp ?_
  intro a b hab heq
  rw [heq] at hab
  rw [strLt_irrefl] at hab
  exact Bool.false_ne_true hab

theorem mem_sortedSet {y : String} : ∀ {l : List String}, (y ∈ sortedSet l ↔ y ∈ l)
  | [] => Iff.rfl
  | x :: t => by
    show y ∈ insertSorted x (sortedSet t) ↔ _
    rw [mem_insertSorted, mem_sortedSet (l := t)]
    simp

/-- C10 counterexample: a document with no segmentation narrative at
all yields the tag value `"None detected"` (capital `N`), which is not
the claim's literal `"none detected"` (and not the empty string). -/
theorem C10_counterexample :
    (extract_segmentation_features [] []).2.lookup "segmentation_tags"
      = some "None detected" ∧
    ¬((extract_segmentation_features [] []).2.lookup "segmentation_tags"
      = some "none detected") ∧
    ¬((extract_segmentation_features [] []).2.lookup "segmentation_tags" = some "") := by
  refine ⟨by decide, by decide, by decide⟩

/-- C10 amended: with no segmentation-terminology match the tag feature
is the literal `"None detected"` marker (capital `N`), never the empty
string; with matches it is the comma-joined token list, which is exactly
the lowercased, code-point-sorted, duplicate-free collection of all
matched phrases. -/
theorem C10_segmentation_tags (prose : List Char) :
    (segTokens prose = [] →
      segmentationTags prose = "None detected" ∧ segmentationTags prose ≠ "") ∧
    (segTokens prose ≠ [] →
      segmentationTags prose = String.intercalate ", " (segTokens prose)) ∧
    List.Pairwise (fun a b => strLt a b = true) (segTokens prose) ∧
    (segTokens prose).Nodup ∧
    (∀ s, s ∈ segTokens prose ↔ s ∈ (segMatches prose).map strLowerL) := by
  refine ⟨?_, ?_, sortedSet_pairwise _, sortedSet_nodup _, fun s => mem_sortedSet⟩
  · intro h
    rw [segmentationTags, if_neg (by simp [h])]
    exact ⟨rfl, by decide⟩
  · intro h
    rw [segmentationTags, if_pos h]

/-- C10 witness: a concrete narrative with one segmentation phrase and
the empty narrative. -/
theorem C10_witness :
    segmentationTags "Flow is assigned a Taker Level per client".data = "taker level" ∧
    segmentationTags "".data = "None detected" := by
  constructor
  · have h := (C10_segmentation_tags "Flow is assigned a Taker Level per client".data).2.1
      (by decide)
    rw [h]
    decide
  · exact ((C10_segmentation_tags "".data).1 (by decide)).1
